import Mathlib

/-!
# Verification of the event-booking data layer

Shallow embedding of the normalization and validation pipeline of the
repository's two document models (`Event`, `Booking`) and of the cached
database-connection helper, together with proofs settling the frozen
claims about them.

Strings are modelled as Lean `String` (a list of Unicode characters),
which matches the JavaScript string functions used by the source on the
code points they inspect.  The JavaScript regular-expression character
class `\s` and `String.prototype.trim` are modelled by the explicit
white-space code-point set below; `toLowerCase` is modelled on the
Basic Latin range (the only range the pipeline's character classes can
retain).  Machine integers do not occur: every number in the source is
a small nonnegative integer.
-/

/-- White-space test of the JavaScript `\s` class and of
`String.prototype.trim`: tab, line feed, vertical tab, form feed,
carriage return, space, no-break space, ogham space mark, the
`U+2000`–`U+200A` spaces, line separator, paragraph separator, narrow
no-break space, medium mathematical space, ideographic space and the
byte-order mark. -/
def jsSpace (c : Char) : Bool :=
  let n := c.toNat
  n = 9 || n = 10 || n = 11 || n = 12 || n = 13 || n = 32 ||
  n = 160 || n = 5760 || (8192 ≤ n && n ≤ 8202) || n = 8232 ||
  n = 8233 || n = 8239 || n = 8287 || n = 12288 || n = 65279

/-- The Basic Latin fragment of JavaScript `toLowerCase`: the letters
`A`–`Z` map to `a`–`z`, every other character is left unchanged. -/
def jsLowerChar (c : Char) : Char :=
  match c with
  | 'A' => 'a' | 'B' => 'b' | 'C' => 'c' | 'D' => 'd' | 'E' => 'e'
  | 'F' => 'f' | 'G' => 'g' | 'H' => 'h' | 'I' => 'i' | 'J' => 'j'
  | 'K' => 'k' | 'L' => 'l' | 'M' => 'm' | 'N' => 'n' | 'O' => 'o'
  | 'P' => 'p' | 'Q' => 'q' | 'R' => 'r' | 'S' => 's' | 'T' => 't'
  | 'U' => 'u' | 'V' => 'v' | 'W' => 'w' | 'X' => 'x' | 'Y' => 'y'
  | 'Z' => 'z'
  | c => c

/-- Leading and trailing white space removed, as `String.prototype.trim`. -/
def trimL (l : List Char) : List Char :=
  ((l.dropWhile jsSpace).reverse.dropWhile jsSpace).reverse

/-- JavaScript `value.trim()`. -/
def jsTrim (s : String) : String := String.mk (trimL s.data)

/-- JavaScript `value.toLowerCase()` (Basic Latin fragment). -/
def jsLowerStr (s : String) : String := String.mk (s.data.map jsLowerChar)

/-- Replace every maximal run of characters satisfying `p` by the single
character `r`: the semantics of `value.replace(run-regex, r)` for the
two global run regexes of `toSlug` (one or more white-space characters,
one or more hyphens). -/
def collapseRuns (p : Char → Bool) (r : Char) : List Char → List Char
  | [] => []
  | [c] => if p c then [r] else [c]
  | c :: d :: cs =>
    if p c && p d then collapseRuns p r (d :: cs)
    else (if p c then r else c) :: collapseRuns p r (d :: cs)

/-- Characters the slug filter keeps: the class `[a-z0-9\s-]` of the
source's `replace(/[^a-z0-9\s-]/g, '')`. -/
def keepChar (c : Char) : Bool :=
  (97 ≤ c.toNat && c.toNat ≤ 122) || (48 ≤ c.toNat && c.toNat ≤ 57) ||
  jsSpace c || c.toNat = 45

/-- Slug pipeline on character lists: lowercase, trim, strip characters
outside `[a-z0-9\s-]`, collapse white-space runs to `-`, collapse `-`
runs to `-`. -/
def toSlugL (l : List Char) : List Char :=
  collapseRuns (fun c => c == '-') '-'
    (collapseRuns jsSpace '-'
      ((trimL (l.map jsLowerChar)).filter keepChar))

/-- The source's `toSlug`. -/
def toSlug (s : String) : String := String.mk (toSlugL s.data)

/-! ## Time normalization (`normalizeTime`) -/

/-- Decimal digit test, the `\d` class. -/
def isDigitCh (c : Char) : Bool := 48 ≤ c.toNat && c.toNat ≤ 57

/-- The hour part of the 12-hour pattern `(\d{1,2}):` — one or two
digits followed by a colon — returning JavaScript's `Number(h)` and the
remaining characters. -/
def splitHour (l : List Char) : Option (Nat × List Char) :=
  match l with
  | [c1, c2] =>
    if isDigitCh c1 && c2 == ':' then some (c1.toNat - 48, []) else none
  | c1 :: c2 :: c3 :: rest =>
    if isDigitCh c1 && c2 == ':' then some (c1.toNat - 48, c3 :: rest)
    else if isDigitCh c1 && isDigitCh c2 && c3 == ':' then
      some (10 * (c1.toNat - 48) + (c2.toNat - 48), rest)
    else none
  | _ => none

/-- The tail `\s*(am|pm)$` of the 12-hour pattern on the already
lower-cased input; `some true` means `pm`. -/
def meridiem (l : List Char) : Option Bool :=
  match l.dropWhile jsSpace with
  | [a, m] =>
    if a == 'a' && m == 'm' then some false
    else if a == 'p' && m == 'm' then some true else none
  | _ => none

/-- Full match of `/^(\d{1,2}):(\d{2})\s*(am|pm)$/` on the trimmed,
lower-cased input: hour value, the two minute digits, and the meridiem. -/
def match12 (l : List Char) : Option (Nat × Char × Char × Bool) :=
  match splitHour l with
  | some (h, m1 :: m2 :: rest) =>
    if isDigitCh m1 && isDigitCh m2 then
      match meridiem rest with
      | some pm => some (h, m1, m2, pm)
      | none => none
    else none
  | _ => none

/-- The minutes class `[0-5]\d`. -/
def minutesOk (m1 m2 : Char) : Bool :=
  48 ≤ m1.toNat && m1.toNat ≤ 53 && isDigitCh m2

/-- The two-digit 24-hour alternatives `[01]\d | 2[0-3]`. -/
def hour2Ok (c1 c2 : Char) : Bool :=
  ((c1.toNat = 48 || c1.toNat = 49) && isDigitCh c2) ||
  (c1.toNat = 50 && (48 ≤ c2.toNat && c2.toNat ≤ 51))

/-- Full match of `/^([01]?\d|2[0-3]):([0-5]\d)$/`: the hour digits as
captured (unconverted) and the two minute digits. -/
def match24 (l : List Char) : Option (List Char × Char × Char) :=
  match l with
  | [c1, c, m1, m2] =>
    if isDigitCh c1 && c == ':' && minutesOk m1 m2 then
      some ([c1], m1, m2)
    else none
  | [c1, c2, c, m1, m2] =>
    if hour2Ok c1 c2 && c == ':' && minutesOk m1 m2 then
      some ([c1, c2], m1, m2)
    else none
  | _ => none

/-- JavaScript `padStart(2, '0')`. -/
def padStart2 (s : String) : String :=
  if s.length < 2 then String.mk (List.replicate (2 - s.length) '0') ++ s
  else s

/-- The source's `normalizeTime`: trim and lower-case, try the 12-hour
pattern (converting `12 am` to `0`, adding `12` for `pm` hours other
than `12`), then the 24-hour pattern (re-padding the hour), otherwise
fail. -/
def normalizeTime (value : String) : Except String String :=
  let trimmed := jsLowerStr (jsTrim value)
  match match12 trimmed.data with
  | some (hourNum, m1, m2, isPm) =>
    let normalizedHour :=
      if isPm && !(hourNum == 12) then hourNum + 12
      else if !isPm && hourNum == 12 then 0
      else hourNum
    Except.ok (padStart2 (toString normalizedHour) ++ ":" ++ String.mk [m1, m2])
  | none =>
    match match24 trimmed.data with
    | some (h, m1, m2) =>
      Except.ok (padStart2 (String.mk h) ++ ":" ++ String.mk [m1, m2])
    | none => Except.error "Invalid time format. Use HH:MM or HH:MM AM/PM."

/-! ## Date normalization (`normalizeDate`)

The source calls `new Date(value)` and, when the result is a valid
instant, stores `parsed.toISOString().split('T')[0]`.  We model an
instant as its epoch-millisecond value (an `Int`), the host parser as a
function `String → Option Int` (ECMA-262 leaves the parsing of non-ISO
date strings implementation-defined, so it is a parameter of the
pipeline), and `toISOString`'s date portion by the proleptic-Gregorian
civil-from-days conversion, which is exactly what ECMA-262 specifies
for the UTC year, month and day of an instant. -/

/-- Days from the epoch 1970-01-01 to the civil date `y-m-d`
(proleptic Gregorian). -/
def daysFromCivil (y m d : Int) : Int :=
  let y1 := if m ≤ 2 then y - 1 else y
  let era := Int.fdiv y1 400
  let yoe := y1 - era * 400
  let mp := if m > 2 then m - 3 else m + 9
  let doy := Int.fdiv (153 * mp + 2) 5 + d - 1
  let doe := yoe * 365 + Int.fdiv yoe 4 - Int.fdiv yoe 100 + doy
  era * 146097 + doe - 719468

/-- Civil date `(y, m, d)` of the day `z` days after 1970-01-01
(proleptic Gregorian); the inverse of `daysFromCivil`. -/
def civilFromDays (z0 : Int) : Int × Int × Int :=
  let z := z0 + 719468
  let era := Int.fdiv z 146097
  let doe := z - era * 146097
  let yoe :=
    Int.fdiv (doe - Int.fdiv doe 1460 + Int.fdiv doe 36524 - Int.fdiv doe 146096) 365
  let y := yoe + era * 400
  let doy := doe - (365 * yoe + Int.fdiv yoe 4 - Int.fdiv yoe 100)
  let mp := Int.fdiv (5 * doy + 2) 153
  let d := doy - Int.fdiv (153 * mp + 2) 5 + 1
  let m := if mp < 10 then mp + 3 else mp - 9
  (if m ≤ 2 then y + 1 else y, m, d)

/-- Two-digit zero padding of the month and day fields of
`toISOString`. -/
def pad2 (n : Int) : String :=
  if n < 10 then "0" ++ toString n else toString n

/-- The `YYYY-MM-DD` portion of `toISOString` of the instant `ms`
epoch milliseconds: the civil date of the UTC day containing it. -/
def isoDatePortion (ms : Int) : String :=
  let triple := civilFromDays (Int.fdiv ms 86400000)
  toString triple.1 ++ "-" ++ pad2 triple.2.1 ++ "-" ++ pad2 triple.2.2

/-- The source's `normalizeDate`, parameterized by the host date
parser: an unparseable input (`NaN` instant) fails, otherwise only the
ISO date portion is kept. -/
def normalizeDate (parse : String → Option Int) (value : String) :
    Except String String :=
  match parse value with
  | none => Except.error "Invalid date format."
  | some ms => Except.ok (isoDatePortion ms)

/-- Modelled host `new Date(string)` parser, for the inputs the claims
exercise, parameterized by the host time zone's offset east of UTC in
minutes.  Per ECMA-262 a date-only ISO string such as `2024-03-05`
parses as UTC midnight; the parsing of `March 5, 2024` is
implementation-defined, and the major engines (V8, SpiderMonkey,
JavaScriptCore) parse it as local-time midnight, i.e. `offsetMin`
minutes before UTC midnight of that day. -/
def hostParse (offsetMin : Int) (s : String) : Option Int :=
  if s = "2024-03-05" then some (daysFromCivil 2024 3 5 * 86400000)
  else if s = "March 5, 2024" then
    some (daysFromCivil 2024 3 5 * 86400000 - offsetMin * 60000)
  else none

/-! ## The Event pre-save pipeline (`handleNormalize`) -/

/-- A schema-path value as the pre-save hook sees it: a string, or a
value of any other runtime type (the hook only ever distinguishes
`typeof item === 'string'` from everything else). -/
inductive JsVal where
  | str (s : String)
  | other
deriving DecidableEq

/-- The event document's fields as they stand when the pre-save hook
runs.  `agenda`, `tags` and `slug` may be unset (`none` models
`undefined`). -/
structure EventDoc where
  title : String
  description : String
  overview : String
  image : String
  venue : String
  location : String
  date : String
  time : String
  mode : String
  audience : String
  organizer : String
  agenda : Option (List JsVal)
  tags : Option (List JsVal)
  slug : Option String
deriving DecidableEq

/-- The event document after a successful run of the hook. -/
structure EventOut where
  title : String
  description : String
  overview : String
  image : String
  venue : String
  location : String
  date : String
  time : String
  mode : String
  audience : String
  organizer : String
  agenda : List String
  tags : List String
  slug : String
deriving DecidableEq

/-- One required string field: must be non-empty after trimming, and is
stored trimmed. -/
def normStrField (name : String) (value : String) : Except String String :=
  if (jsTrim value).length = 0 then
    Except.error (name ++ " is required and must be a non-empty string.")
  else Except.ok (jsTrim value)

/-- The `.map` step over `agenda`/`tags`: trim each entry, throwing
`msg` at a non-string entry. -/
def mapTrimStrings (msg : String) : List JsVal → Except String (List String)
  | [] => Except.ok []
  | JsVal.str s :: rest =>
    match mapTrimStrings msg rest with
    | Except.ok r => Except.ok (jsTrim s :: r)
    | Except.error m => Except.error m
  | JsVal.other :: _ => Except.error msg

/-- JavaScript falsiness of the `slug` path: unset (`undefined`) or the
empty string. -/
def slugFalsy : Option String → Bool
  | none => true
  | some s => s == ""

/-- The source's `handleNormalize` pre-save hook, parameterized by the
host date parser and by `this.isModified('title')`: validate and trim
the eleven required string fields in order, normalize `agenda` then
`tags` (trim entries, reject non-strings, drop empties, reject an empty
result), normalize `date` and `time`, and recompute the slug when it is
falsy or the title changed.  (The source's `typeof value !== 'string'`
guard on the eleven string paths and its `Array.isArray` re-check after
`.map` cannot fire on a typed document and are subsumed by the model's
field types.) -/
def handleNormalize (parse : String → Option Int) (titleChanged : Bool)
    (e : EventDoc) : Except String EventOut := do
  let title ← normStrField "title" e.title
  let description ← normStrField "description" e.description
  let overview ← normStrField "overview" e.overview
  let image ← normStrField "image" e.image
  let venue ← normStrField "venue" e.venue
  let location ← normStrField "location" e.location
  let date0 ← normStrField "date" e.date
  let time0 ← normStrField "time" e.time
  let mode ← normStrField "mode" e.mode
  let audience ← normStrField "audience" e.audience
  let organizer ← normStrField "organizer" e.organizer
  let agenda0 ← mapTrimStrings "agenda must contain strings." (e.agenda.getD [])
  let agenda := agenda0.filter (fun s => 0 < s.length)
  if agenda.length = 0 then
    Except.error "agenda is required and must be a non-empty array."
  else do
    let tags0 ← mapTrimStrings "tags must contain strings." (e.tags.getD [])
    let tags := tags0.filter (fun s => 0 < s.length)
    if tags.length = 0 then
      Except.error "tags is required and must be a non-empty array."
    else do
      let date ← normalizeDate parse date0
      let time ← normalizeTime time0
      let slug := if slugFalsy e.slug || titleChanged then toSlug title
        else e.slug.getD ""
      Except.ok
        { title := title, description := description, overview := overview,
          image := image, venue := venue, location := location, date := date,
          time := time, mode := mode, audience := audience,
          organizer := organizer, agenda := agenda, tags := tags, slug := slug }

/-! ## The Booking pre-save pipeline (`validateBooking`)

Object ids are modelled as natural numbers; `Types.ObjectId.isValid` is
an external library predicate and is therefore a parameter `validId`;
the `Event.exists` lookup is modelled by membership in the list of
stored event ids. -/

/-- A character the email regex accepts inside its three segments: the
class `[^\s@]`. -/
def okChar (c : Char) : Bool := !jsSpace c && !(c == '@')

/-- The tail segment `[^\s@]+$`: non-empty, all characters in class. -/
def tailOk (l : List Char) : Bool := !l.isEmpty && l.all okChar

/-- After at least one domain character: either the literal dot followed
by a valid tail, or one more in-class character and recur. -/
def domRest : List Char → Bool
  | [] => false
  | c :: cs => (c == '.' && tailOk cs) || (okChar c && domRest cs)

/-- The domain part `[^\s@]+\.[^\s@]+$`. -/
def domOk : List Char → Bool
  | [] => false
  | c :: cs => okChar c && domRest cs

/-- After at least one local character: either the literal `@` followed
by a valid domain, or one more in-class character and recur. -/
def emailAux : List Char → Bool
  | [] => false
  | c :: cs => (c == '@' && domOk cs) || (okChar c && emailAux cs)

/-- Match of the full email regex `/^[^\s@]+@[^\s@]+\.[^\s@]+$/`. -/
def isValidEmailL : List Char → Bool
  | [] => false
  | c :: cs => okChar c && emailAux cs

/-- The source's `isValidEmail`. -/
def isValidEmail (s : String) : Bool := isValidEmailL s.data

/-- The booking document's fields as the pre-save hook sees them,
together with the two document flags the hook reads. -/
structure BookingDoc where
  email : JsVal
  eventId : Nat
  isNew : Bool
  eventIdModified : Bool
deriving DecidableEq

/-- The schema's `trim: true, lowercase: true` setters on the `email`
path, applied on assignment before the hook runs. -/
def setEmail : JsVal → JsVal
  | JsVal.str s => JsVal.str (jsLowerStr (jsTrim s))
  | JsVal.other => JsVal.other

/-- The source's `validateBooking` pre-save hook: email must be a
non-empty string after trimming and match the email regex, the event id
must be structurally valid, and — only for a new document or a changed
`eventId` — the referenced event must exist. -/
def validateBooking (validId : Nat → Bool) (events : List Nat)
    (b : BookingDoc) : Except String Unit :=
  match b.email with
  | JsVal.other => Except.error "email is required and must be a non-empty string."
  | JsVal.str e =>
    if (jsTrim e).length = 0 then
      Except.error "email is required and must be a non-empty string."
    else if !isValidEmail e then Except.error "Invalid email format."
    else if !validId b.eventId then
      Except.error "eventId must be a valid ObjectId."
    else if b.isNew || b.eventIdModified then
      if events.contains b.eventId then Except.ok ()
      else Except.error "Referenced event does not exist."
    else Except.ok ()

/-- Saving a booking: the schema setters run on assignment, then the
pre-save hook validates the document. -/
def saveBooking (validId : Nat → Bool) (events : List Nat)
    (b : BookingDoc) : Except String Unit :=
  validateBooking validId events { b with email := setEmail b.email }

/-! ## The connection cache (`connectToDatabase`) -/

/-- The process-wide cache: a live connection handle and an in-flight
establishment, both possibly absent.  Handles are modelled as natural
numbers. -/
structure MongooseCache where
  conn : Option Nat
  promise : Option Nat
deriving DecidableEq

/-- What a single call to `connectToDatabase` does up to its first
suspension point, as a function of the `MONGODB_URI` configuration
value and the cache: throw the configuration error, return the cached
connection immediately, await the in-flight establishment, or start a
new establishment. -/
inductive ConnectOutcome where
  | configError (msg : String)
  | immediate (conn : Nat)
  | awaitPending (promise : Nat)
  | startEstablish (uri : String)
deriving DecidableEq

/-- The source's `connectToDatabase`, reduced to its synchronous
decision: the `MONGODB_URI` check comes first, then the cached
connection, then the in-flight promise, else a new establishment is
started. -/
def connectToDatabase (uri : Option String) (cached : MongooseCache) :
    ConnectOutcome :=
  match uri with
  | none => ConnectOutcome.configError "MONGODB_URI environment variable is not set."
  | some u =>
    match cached.conn with
    | some c => ConnectOutcome.immediate c
    | none =>
      match cached.promise with
      | some p => ConnectOutcome.awaitPending p
      | none => ConnectOutcome.startEstablish u


/-! ## Derived definitions used by the statements and proofs -/

/-- No two adjacent characters of the list both satisfy `p`. -/
def noRun (p : Char → Bool) : List Char → Prop
  | [] => True
  | [_] => True
  | c :: d :: cs => ¬(p c = true ∧ p d = true) ∧ noRun p (d :: cs)

/-- The characters a finished slug can contain: lower-case letters,
digits, hyphen. -/
def slugChar (c : Char) : Bool :=
  (97 ≤ c.toNat && c.toNat ≤ 122) || (48 ≤ c.toNat && c.toNat ≤ 57) ||
  c.toNat = 45

/-- The string payloads of a mixed list, in order. -/
def strVals : List JsVal → List String
  | [] => []
  | JsVal.str s :: rest => s :: strVals rest
  | JsVal.other :: rest => strVals rest

/-- What the agenda/tags steps store when every entry is a string: each
entry trimmed, the entries that trim to empty dropped. -/
def normalizedEntries (l : List JsVal) : List String :=
  ((strVals l).map jsTrim).filter (fun s => 0 < s.length)

/-- The eleven required string fields all pass the non-empty-after-trim
check. -/
def stringFieldsOk (e : EventDoc) : Bool :=
  (jsTrim e.title).length != 0 && (jsTrim e.description).length != 0 &&
  (jsTrim e.overview).length != 0 && (jsTrim e.image).length != 0 &&
  (jsTrim e.venue).length != 0 && (jsTrim e.location).length != 0 &&
  (jsTrim e.date).length != 0 && (jsTrim e.time).length != 0 &&
  (jsTrim e.mode).length != 0 && (jsTrim e.audience).length != 0 &&
  (jsTrim e.organizer).length != 0

/-- The email shape exactly as the specification words it: a
`local@domain` split whose local part is non-empty without white space
or `@`, and whose domain part is non-empty without white space and
contains a dot.  (This is the claimed shape; the code's regex is
stricter, see `isValidEmailL_iff`.) -/
def claimEmailShape (s : String) : Prop :=
  ∃ lp dom : List Char, s.data = lp ++ '@' :: dom ∧ lp ≠ [] ∧ dom ≠ [] ∧
    (∀ c ∈ lp, jsSpace c = false ∧ c ≠ '@') ∧
    (∀ c ∈ dom, jsSpace c = false) ∧ '.' ∈ dom

/-- The email checks of the pre-save hook pass on the stored (trimmed,
lower-cased) value. -/
def emailOk : JsVal → Bool
  | JsVal.str s =>
    (jsTrim (jsLowerStr (jsTrim s))).length != 0 &&
      isValidEmail (jsLowerStr (jsTrim s))
  | JsVal.other => false

/-- Sample event: a title made only of stripped characters. -/
def evSpecial : EventDoc :=
  { title := "!!!", description := "d", overview := "o", image := "i",
    venue := "v", location := "l", date := "2024-03-05", time := "9:30",
    mode := "m", audience := "a", organizer := "g",
    agenda := some [JsVal.str "point"], tags := some [JsVal.str "tag"],
    slug := none }

/-- Sample event: the spec's slug example. -/
def evMeetup : EventDoc :=
  { title := "Node.js Meetup!!", description := "d", overview := "o",
    image := "i", venue := "v", location := "l", date := "2024-03-05",
    time := "9:30", mode := "m", audience := "a", organizer := "g",
    agenda := some [JsVal.str "intro"], tags := some [JsVal.str "nodejs"],
    slug := none }

/-- The normalized form of `evMeetup`. -/
def outMeetup : EventOut :=
  { title := "Node.js Meetup!!", description := "d", overview := "o",
    image := "i", venue := "v", location := "l", date := "2024-03-05",
    time := "09:30", mode := "m", audience := "a", organizer := "g",
    agenda := ["intro"], tags := ["nodejs"], slug := "nodejs-meetup" }

/-- Sample event: a non-string agenda entry. -/
def evBadAgenda : EventDoc :=
  { title := "T", description := "d", overview := "o", image := "i",
    venue := "v", location := "l", date := "2024-03-05", time := "9:30",
    mode := "m", audience := "a", organizer := "g",
    agenda := some [JsVal.str "x", JsVal.other],
    tags := some [JsVal.str "tag"], slug := none }

/-! ## Supporting lemmas: `Except` plumbing -/

theorem okBind {α β : Type} (a : α) (f : α → Except String β) :
    (Except.ok a : Except String α) >>= f = f a := rfl

theorem errBind {α β : Type} (m : String) (f : α → Except String β) :
    (Except.error m : Except String α) >>= f = Except.error m := rfl

theorem bind_ok {α β : Type} {x : Except String α} {f : α → Except String β}
    {b : β} (h : x >>= f = Except.ok b) :
    ∃ a, x = Except.ok a ∧ f a = Except.ok b := by
  cases x with
  | error m => exact absurd h (by simp [errBind])
  | ok a => exact ⟨a, rfl, h⟩

/-! ## Supporting lemmas: run collapsing -/

theorem mem_collapseRuns {p : Char → Bool} {r : Char} (l : List Char) :
    ∀ x ∈ collapseRuns p r l, x = r ∨ (x ∈ l ∧ p x = false) := by
  induction l with
  | nil => simp [collapseRuns]
  | cons c cs ih =>
    cases cs with
    | nil =>
      intro x hx
      by_cases h : p c = true
      · left; simpa [collapseRuns, h] using hx
      · right
        simp [collapseRuns, h] at hx
        simp [hx, Bool.not_eq_true] at h ⊢
        exact h
    | cons d cs' =>
      intro x hx
      by_cases h : (p c && p d) = true
      · rw [collapseRuns, if_pos h] at hx
        rcases ih x hx with h1 | ⟨h2, h3⟩
        · exact Or.inl h1
        · exact Or.inr ⟨List.mem_cons_of_mem _ h2, h3⟩
      · rw [collapseRuns, if_neg h] at hx
        rcases List.mem_cons.mp hx with h1 | h2
        · by_cases hc : p c = true
          · rw [if_pos hc] at h1; exact Or.inl h1
          · rw [if_neg hc] at h1
            exact Or.inr ⟨by simp [h1], by simpa [h1, Bool.not_eq_true] using hc⟩
        · rcases ih x h2 with h3 | ⟨h4, h5⟩
          · exact Or.inl h3
          · exact Or.inr ⟨List.mem_cons_of_mem _ h4, h5⟩

theorem collapseRuns_eq_self {p : Char → Bool} {r : Char} {l : List Char}
    (h : ∀ x ∈ l, p x = false) : collapseRuns p r l = l := by
  induction l with
  | nil => rfl
  | cons c cs ih =>
    cases cs with
    | nil => simp [collapseRuns, h c (by simp)]
    | cons d cs' =>
      rw [collapseRuns, if_neg (by simp [h c (by simp), h d (by simp)]),
        if_neg (by simp [h c (by simp)])]
      exact congrArg _ (ih fun x hx => h x (List.mem_cons_of_mem _ hx))

theorem collapseRuns_cons_of_neg (p : Char → Bool) (r d : Char)
    (cs : List Char) (hd : p d = false) :
    ∃ t, collapseRuns p r (d :: cs) = d :: t := by
  cases cs with
  | nil => exact ⟨[], by simp [collapseRuns, hd]⟩
  | cons e cs' =>
    refine ⟨collapseRuns p r (e :: cs'), ?_⟩
    rw [collapseRuns, if_neg (by simp [hd]), if_neg (by simp [hd])]

theorem noRun_collapseRuns (p : Char → Bool) (r : Char) (l : List Char) :
    noRun p (collapseRuns p r l) := by
  induction l with
  | nil => trivial
  | cons c cs ih =>
    cases cs with
    | nil =>
      by_cases h : p c = true
      · simp only [collapseRuns, if_pos h]; trivial
      · simp only [collapseRuns, if_neg h]; trivial
    | cons d cs' =>
      by_cases h : (p c && p d) = true
      · rw [collapseRuns, if_pos h]; exact ih
      · rw [collapseRuns, if_neg h]
        rcases hR : collapseRuns p r (d :: cs') with _ | ⟨f, t⟩
        · trivial
        · refine ⟨?_, hR ▸ ih⟩
          rintro ⟨he, hf⟩
          by_cases hc : p c = true
          · have hd : p d = false := by
              cases hpd : p d with
              | false => rfl
              | true => exact absurd (by simp [hc, hpd]) h
            obtain ⟨t', ht'⟩ := collapseRuns_cons_of_neg p r d cs' hd
            rw [ht'] at hR
            cases hR
            exact absurd hf (by simp [hd])
          · rw [if_neg hc] at he
            exact hc he


theorem collapseRuns_eq_self_of_noRun {p : Char → Bool} {r : Char}
    {l : List Char} (hr : ∀ x ∈ l, p x = true → x = r) (hn : noRun p l) :
    collapseRuns p r l = l := by
  induction l with
  | nil => rfl
  | cons c cs ih =>
    cases cs with
    | nil =>
      by_cases h : p c = true
      · have hc := hr c (by simp) h
        subst hc
        simp only [collapseRuns, if_pos h]
      · simp only [collapseRuns, if_neg h]
    | cons d cs' =>
      have hnd : ¬(p c = true ∧ p d = true) := hn.1
      have hcd : ¬(p c && p d) = true := by
        simpa [Bool.and_eq_true] using hnd
      rw [collapseRuns, if_neg hcd]
      have htl : collapseRuns p r (d :: cs') = d :: cs' :=
        ih (fun x hx hpx => hr x (List.mem_cons_of_mem _ hx) hpx) hn.2
      rw [htl]
      by_cases hc : p c = true
      · rw [if_pos hc, hr c (by simp) hc]
      · rw [if_neg hc]

/-! ## Supporting lemmas: trimming -/

theorem dropWhile_eq_self_of_all {p : Char → Bool} {l : List Char}
    (h : ∀ x ∈ l, p x = false) : l.dropWhile p = l := by
  cases l with
  | nil => rfl
  | cons c cs => exact List.dropWhile_cons_of_neg (by simp [h c (by simp)])

theorem dropWhile_idem (p : Char → Bool) (l : List Char) :
    (l.dropWhile p).dropWhile p = l.dropWhile p := by
  induction l with
  | nil => rfl
  | cons c cs ih =>
    by_cases h : p c = true
    · rw [List.dropWhile_cons_of_pos h]; exact ih
    · rw [List.dropWhile_cons_of_neg h, List.dropWhile_cons_of_neg h]

theorem dropWhile_head_false {p : Char → Bool} :
    ∀ {l : List Char} {c : Char}, (l.dropWhile p).head? = some c → p c = false := by
  intro l
  induction l with
  | nil => intro c h; exact absurd h (by simp)
  | cons d cs ih =>
    intro c h
    by_cases hd : p d = true
    · rw [List.dropWhile_cons_of_pos hd] at h; exact ih h
    · rw [List.dropWhile_cons_of_neg hd] at h
      simp only [List.head?_cons, Option.some.injEq] at h
      subst h
      exact Bool.not_eq_true _ ▸ hd

theorem dropWhile_eq_self_of_head {p : Char → Bool} {l : List Char}
    (h : ∀ c, l.head? = some c → p c = false) : l.dropWhile p = l := by
  cases l with
  | nil => rfl
  | cons c cs => exact List.dropWhile_cons_of_neg (by simp [h c rfl])

theorem prefix_head_eq {l1 l2 : List Char} (h : l1 <+: l2) (hne : l1 ≠ []) :
    l1.head? = l2.head? := by
  obtain ⟨t, rfl⟩ := h
  cases l1 with
  | nil => exact absurd rfl hne
  | cons c cs => rfl

theorem trimL_prefix_dropWhile (l : List Char) :
    trimL l <+: l.dropWhile jsSpace := by
  obtain ⟨s, hs⟩ := List.dropWhile_suffix (l := (l.dropWhile jsSpace).reverse) jsSpace
  refine ⟨s.reverse, ?_⟩
  calc trimL l ++ s.reverse
      = ((l.dropWhile jsSpace).reverse.dropWhile jsSpace).reverse ++ s.reverse := rfl
    _ = (s ++ (l.dropWhile jsSpace).reverse.dropWhile jsSpace).reverse := by
        rw [List.reverse_append]
    _ = l.dropWhile jsSpace := by rw [hs, List.reverse_reverse]

theorem mem_trimL {l : List Char} {x : Char} (h : x ∈ trimL l) : x ∈ l := by
  have h1 : x ∈ (l.dropWhile jsSpace).reverse.dropWhile jsSpace := by
    simpa [trimL] using h
  exact (List.dropWhile_sublist jsSpace).subset
    (List.mem_reverse.mp ((List.dropWhile_sublist jsSpace).subset h1))

theorem trimL_idem (l : List Char) : trimL (trimL l) = trimL l := by
  have hB : (trimL l).dropWhile jsSpace = trimL l := by
    apply dropWhile_eq_self_of_head
    intro c hc
    have hne : trimL l ≠ [] := by
      intro h0
      rw [h0] at hc
      exact absurd hc (by simp)
    have := prefix_head_eq (trimL_prefix_dropWhile l) hne
    exact dropWhile_head_false (this ▸ hc)
  have hrev : (trimL l).reverse = (l.dropWhile jsSpace).reverse.dropWhile jsSpace := by
    simp [trimL]
  calc trimL (trimL l)
      = (((trimL l).dropWhile jsSpace).reverse.dropWhile jsSpace).reverse := rfl
    _ = ((trimL l).reverse.dropWhile jsSpace).reverse := by rw [hB]
    _ = (((l.dropWhile jsSpace).reverse.dropWhile jsSpace).dropWhile jsSpace).reverse := by
        rw [hrev]
    _ = ((l.dropWhile jsSpace).reverse.dropWhile jsSpace).reverse := by
        rw [dropWhile_idem]
    _ = trimL l := rfl

theorem trimL_eq_self_of_all {l : List Char}
    (h : ∀ x ∈ l, jsSpace x = false) : trimL l = l := by
  unfold trimL
  rw [dropWhile_eq_self_of_all h,
    dropWhile_eq_self_of_all (fun x hx => h x (List.mem_reverse.mp hx)),
    List.reverse_reverse]

/-! ## Supporting lemmas: slug characters -/

theorem slugChar_keep {c : Char} (h : slugChar c = true) : keepChar c = true := by
  simp only [slugChar, Bool.or_eq_true, Bool.and_eq_true, decide_eq_true_eq] at h
  simp only [keepChar, Bool.or_eq_true, Bool.and_eq_true, decide_eq_true_eq]
  omega

theorem slugChar_not_space {c : Char} (h : slugChar c = true) :
    jsSpace c = false := by
  simp only [slugChar, Bool.or_eq_true, Bool.and_eq_true, decide_eq_true_eq] at h
  simp only [jsSpace, Bool.or_eq_true, Bool.and_eq_true, decide_eq_true_eq,
    Bool.or_eq_false_iff, decide_eq_false_iff_not, Bool.and_eq_false_iff]
  omega

theorem jsLowerChar_eq_self {c : Char}
    (h : ¬(65 ≤ c.toNat ∧ c.toNat ≤ 90)) : jsLowerChar c = c := by
  unfold jsLowerChar
  split <;> first | rfl | (exact absurd (by decide) h)

theorem slugChar_lower {c : Char} (h : slugChar c = true) :
    jsLowerChar c = c := by
  apply jsLowerChar_eq_self
  simp only [slugChar, Bool.or_eq_true, Bool.and_eq_true, decide_eq_true_eq] at h
  omega

theorem jsSpace_jsLowerChar (c : Char) : jsSpace (jsLowerChar c) = jsSpace c := by
  unfold jsLowerChar
  split <;> rfl

theorem mem_filter_keep_not_space {l : List Char} {x : Char}
    (hx : x ∈ l.filter keepChar) (hs : jsSpace x = false) : slugChar x = true := by
  have hk : keepChar x = true := (List.mem_filter.mp hx).2
  simp only [keepChar, Bool.or_eq_true, Bool.and_eq_true, decide_eq_true_eq] at hk
  rcases hk with ((h1 | h2) | h3) | h4
  · simp [slugChar, h1]
  · simp [slugChar, h2]
  · exact absurd h3 (by simp [hs])
  · simp [slugChar, h4]

theorem mem_toSlugL_slugChar {l : List Char} {x : Char}
    (hx : x ∈ toSlugL l) : slugChar x = true := by
  unfold toSlugL at hx
  rcases mem_collapseRuns _ x hx with h1 | ⟨h2, _⟩
  · subst h1; decide
  · rcases mem_collapseRuns _ x h2 with h3 | ⟨h4, h5⟩
    · subst h3; decide
    · exact mem_filter_keep_not_space h4 h5

theorem toSlugL_idem (l : List Char) : toSlugL (toSlugL l) = toSlugL l := by
  have hall : ∀ x ∈ toSlugL l, slugChar x = true := fun x hx =>
    mem_toSlugL_slugChar hx
  have hmap : (toSlugL l).map jsLowerChar = toSlugL l := by
    rw [List.map_congr_left (fun a ha => slugChar_lower (hall a ha))]
    exact List.map_id _
  have htrim : trimL (toSlugL l) = toSlugL l :=
    trimL_eq_self_of_all (fun x hx => slugChar_not_space (hall x hx))
  have hfilter : (toSlugL l).filter keepChar = toSlugL l :=
    List.filter_eq_self.mpr (fun a ha => slugChar_keep (hall a ha))
  have hcoll1 : collapseRuns jsSpace '-' (toSlugL l) = toSlugL l :=
    collapseRuns_eq_self (fun x hx => slugChar_not_space (hall x hx))
  have hcoll2 :
      collapseRuns (fun c => c == '-') '-' (toSlugL l) = toSlugL l := by
    apply collapseRuns_eq_self_of_noRun
    · intro x _ hx
      exact beq_iff_eq.mp hx
    · exact noRun_collapseRuns _ _ _
  calc toSlugL (toSlugL l)
      = collapseRuns (fun c => c == '-') '-'
          (collapseRuns jsSpace '-'
            ((trimL ((toSlugL l).map jsLowerChar)).filter keepChar)) := rfl
    _ = toSlugL l := by rw [hmap, htrim, hfilter, hcoll1, hcoll2]

theorem toSlugL_eq_nil {l : List Char}
    (h : ∀ c ∈ l, keepChar (jsLowerChar c) = false) : toSlugL l = [] := by
  have hfil : (trimL (l.map jsLowerChar)).filter keepChar = [] := by
    rw [List.filter_eq_nil_iff]
    intro a ha
    have ha2 : a ∈ l.map jsLowerChar := mem_trimL ha
    obtain ⟨c, hc, rfl⟩ := List.mem_map.mp ha2
    simp [h c hc]
  unfold toSlugL
  rw [hfil]
  rfl

/-! ## Supporting lemmas: lower-casing and trimming commute -/

theorem dropWhile_map_lower (l : List Char) :
    (l.map jsLowerChar).dropWhile jsSpace =
      (l.dropWhile jsSpace).map jsLowerChar := by
  rw [List.dropWhile_map]
  have h : jsSpace ∘ jsLowerChar = jsSpace := funext fun c => jsSpace_jsLowerChar c
  rw [h]

theorem trimL_map_lower (l : List Char) :
    trimL (l.map jsLowerChar) = (trimL l).map jsLowerChar := by
  unfold trimL
  rw [dropWhile_map_lower, ← List.map_reverse, dropWhile_map_lower,
    ← List.map_reverse]

theorem jsTrim_lower_trim (s : String) :
    jsTrim (jsLowerStr (jsTrim s)) = jsLowerStr (jsTrim s) := by
  simp only [jsTrim, jsLowerStr]
  apply congrArg
  calc trimL ((trimL s.data).map jsLowerChar)
      = (trimL (trimL s.data)).map jsLowerChar := by rw [trimL_map_lower]
    _ = (trimL s.data).map jsLowerChar := by rw [trimL_idem]

theorem length_jsLowerStr (s : String) : (jsLowerStr s).length = s.length := by
  have h1 : (jsLowerStr s).length = (s.data.map jsLowerChar).length := rfl
  have h2 : s.length = s.data.length := rfl
  rw [h1, h2, List.length_map]

/-! ## Supporting lemmas: the email regex -/

theorem domRest_cons (c : Char) (cs : List Char) :
    domRest (c :: cs) = ((c == '.' && tailOk cs) || (okChar c && domRest cs)) := rfl

theorem domOk_cons (c : Char) (cs : List Char) :
    domOk (c :: cs) = (okChar c && domRest cs) := rfl

theorem emailAux_cons (c : Char) (cs : List Char) :
    emailAux (c :: cs) = ((c == '@' && domOk cs) || (okChar c && emailAux cs)) := rfl

theorem isValidEmailL_cons (c : Char) (cs : List Char) :
    isValidEmailL (c :: cs) = (okChar c && emailAux cs) := rfl

theorem tailOk_iff {l : List Char} :
    tailOk l = true ↔ l ≠ [] ∧ ∀ c ∈ l, okChar c = true := by
  simp [tailOk, List.isEmpty_iff]

theorem domRest_iff {l : List Char} :
    domRest l = true ↔
      ∃ m t, l = m ++ '.' :: t ∧ (∀ c ∈ m, okChar c = true) ∧
        t ≠ [] ∧ (∀ c ∈ t, okChar c = true) := by
  induction l with
  | nil =>
    constructor
    · intro h; exact absurd h (by simp [domRest])
    · rintro ⟨m, t, hmt, -⟩
      exact absurd hmt (by simp)
  | cons c cs ih =>
    rw [domRest_cons]
    constructor
    · intro h
      rcases (Bool.or_eq_true _ _).mp h with h1 | h2
      · obtain ⟨hc, ht⟩ := (Bool.and_eq_true _ _).mp h1
        obtain ⟨hne, hall⟩ := tailOk_iff.mp ht
        exact ⟨[], cs, by simp [beq_iff_eq.mp hc], by simp, hne, hall⟩
      · obtain ⟨hc, hd⟩ := (Bool.and_eq_true _ _).mp h2
        obtain ⟨m, t, rfl, hm, hne, htl⟩ := ih.mp hd
        refine ⟨c :: m, t, rfl, ?_, hne, htl⟩
        intro x hx
        rcases List.mem_cons.mp hx with rfl | hx2
        · exact hc
        · exact hm x hx2
    · rintro ⟨m, t, hmt, hm, hne, htl⟩
      cases m with
      | nil =>
        simp only [List.nil_append] at hmt
        cases hmt
        simp only [Bool.or_eq_true, Bool.and_eq_true]
        exact Or.inl ⟨by simp, tailOk_iff.mpr ⟨hne, htl⟩⟩
      | cons m0 ms =>
        simp only [List.cons_append, List.cons.injEq] at hmt
        obtain ⟨rfl, hcs⟩ := hmt
        simp only [Bool.or_eq_true, Bool.and_eq_true]
        exact Or.inr ⟨hm c (by simp),
          ih.mpr ⟨ms, t, hcs, fun x hx => hm x (List.mem_cons_of_mem _ hx),
            hne, htl⟩⟩

theorem domOk_iff {l : List Char} :
    domOk l = true ↔
      ∃ m t, l = m ++ '.' :: t ∧ m ≠ [] ∧ (∀ c ∈ m, okChar c = true) ∧
        t ≠ [] ∧ (∀ c ∈ t, okChar c = true) := by
  cases l with
  | nil =>
    constructor
    · intro h; exact absurd h (by simp [domOk])
    · rintro ⟨m, t, hmt, hm, -⟩
      exact absurd hmt (by simp)
  | cons c cs =>
    rw [domOk_cons]
    constructor
    · intro h
      obtain ⟨hc, hd⟩ := (Bool.and_eq_true _ _).mp h
      obtain ⟨m, t, rfl, hm, hne, htl⟩ := domRest_iff.mp hd
      refine ⟨c :: m, t, rfl, by simp, ?_, hne, htl⟩
      intro x hx
      rcases List.mem_cons.mp hx with rfl | hx2
      · exact hc
      · exact hm x hx2
    · rintro ⟨m, t, hmt, hmne, hm, hne, htl⟩
      cases m with
      | nil => exact absurd rfl hmne
      | cons m0 ms =>
        simp only [List.cons_append, List.cons.injEq] at hmt
        obtain ⟨rfl, hcs⟩ := hmt
        simp only [Bool.and_eq_true]
        exact ⟨hm c (by simp),
          domRest_iff.mpr ⟨ms, t, hcs,
            fun x hx => hm x (List.mem_cons_of_mem _ hx), hne, htl⟩⟩

theorem emailAux_iff {l : List Char} :
    emailAux l = true ↔
      ∃ lp rest, l = lp ++ '@' :: rest ∧ (∀ c ∈ lp, okChar c = true) ∧
        domOk rest = true := by
  induction l with
  | nil =>
    constructor
    · intro h; exact absurd h (by simp [emailAux])
    · rintro ⟨lp, rest, hmt, -⟩
      exact absurd hmt (by simp)
  | cons c cs ih =>
    rw [emailAux_cons]
    constructor
    · intro h
      rcases (Bool.or_eq_true _ _).mp h with h1 | h2
      · obtain ⟨hc, hd⟩ := (Bool.and_eq_true _ _).mp h1
        exact ⟨[], cs, by simp [beq_iff_eq.mp hc], by simp, hd⟩
      · obtain ⟨hc, hd⟩ := (Bool.and_eq_true _ _).mp h2
        obtain ⟨lp, rest, rfl, hlp, hdom⟩ := ih.mp hd
        refine ⟨c :: lp, rest, rfl, ?_, hdom⟩
        intro x hx
        rcases List.mem_cons.mp hx with rfl | hx2
        · exact hc
        · exact hlp x hx2
    · rintro ⟨lp, rest, hmt, hlp, hdom⟩
      cases lp with
      | nil =>
        simp only [List.nil_append] at hmt
        cases hmt
        simp only [Bool.or_eq_true, Bool.and_eq_true]
        exact Or.inl ⟨by simp, hdom⟩
      | cons l0 ls =>
        simp only [List.cons_append, List.cons.injEq] at hmt
        obtain ⟨rfl, hcs⟩ := hmt
        simp only [Bool.or_eq_true, Bool.and_eq_true]
        exact Or.inr ⟨hlp c (by simp),
          ih.mpr ⟨ls, rest, hcs,
            fun x hx => hlp x (List.mem_cons_of_mem _ hx), hdom⟩⟩

theorem isValidEmailL_iff {l : List Char} :
    isValidEmailL l = true ↔
      ∃ lp m t, l = lp ++ '@' :: (m ++ '.' :: t) ∧
        lp ≠ [] ∧ m ≠ [] ∧ t ≠ [] ∧
        (∀ c ∈ lp, okChar c = true) ∧ (∀ c ∈ m, okChar c = true) ∧
        (∀ c ∈ t, okChar c = true) := by
  cases l with
  | nil =>
    constructor
    · intro h; exact absurd h (by simp [isValidEmailL])
    · rintro ⟨lp, m, t, hmt, hlp, -⟩
      exact absurd hmt (by simp)
  | cons c cs =>
    rw [isValidEmailL_cons]
    constructor
    · intro h
      obtain ⟨hc, he⟩ := (Bool.and_eq_true _ _).mp h
      obtain ⟨lp, rest, rfl, hlp, hdom⟩ := emailAux_iff.mp he
      obtain ⟨m, t, rfl, hmne, hm, htne, ht⟩ := domOk_iff.mp hdom
      refine ⟨c :: lp, m, t, rfl, by simp, hmne, htne, ?_, hm, ht⟩
      intro x hx
      rcases List.mem_cons.mp hx with rfl | hx2
      · exact hc
      · exact hlp x hx2
    · rintro ⟨lp, m, t, hmt, hlpne, hmne, htne, hlp, hm, ht⟩
      cases lp with
      | nil => exact absurd rfl hlpne
      | cons l0 ls =>
        simp only [List.cons_append, List.cons.injEq] at hmt
        obtain ⟨rfl, hcs⟩ := hmt
        simp only [Bool.and_eq_true]
        exact ⟨hlp c (by simp),
          emailAux_iff.mpr ⟨ls, m ++ '.' :: t, hcs,
            fun x hx => hlp x (List.mem_cons_of_mem _ hx),
            domOk_iff.mpr ⟨m, t, rfl, hmne, hm, htne, ht⟩⟩⟩

/-! ## Supporting lemmas: the Event pipeline -/

theorem normStrField_ok {v : String} (n : String)
    (h : (jsTrim v).length ≠ 0) : normStrField n v = Except.ok (jsTrim v) := by
  simp [normStrField, h]

theorem normStrField_ok_inv {n v : String} {a : String}
    (h : normStrField n v = Except.ok a) : a = jsTrim v := by
  by_cases h0 : (jsTrim v).length = 0
  · rw [normStrField, if_pos h0] at h
    cases h
  · rw [normStrField, if_neg h0] at h
    cases h
    rfl

theorem mapTrimStrings_err {l : List JsVal} (msg : String)
    (h : JsVal.other ∈ l) : mapTrimStrings msg l = Except.error msg := by
  induction l with
  | nil => exact absurd h (by simp)
  | cons v rest ih =>
    cases v with
    | str s =>
      have h2 : JsVal.other ∈ rest := by
        rcases List.mem_cons.mp h with h1 | h1
        · exact absurd h1 (by simp)
        · exact h1
      rw [mapTrimStrings, ih h2]
    | other => rfl

theorem mapTrimStrings_ok {l : List JsVal} (msg : String)
    (h : JsVal.other ∉ l) :
    mapTrimStrings msg l = Except.ok ((strVals l).map jsTrim) := by
  induction l with
  | nil => rfl
  | cons v rest ih =>
    cases v with
    | str s =>
      have h2 : JsVal.other ∉ rest := fun hm => h (List.mem_cons_of_mem _ hm)
      rw [mapTrimStrings, ih h2]
      rfl
    | other => exact absurd (by simp) h

theorem stringFieldsOk_parts {e : EventDoc} (hf : stringFieldsOk e = true) :
    (jsTrim e.title).length ≠ 0 ∧ (jsTrim e.description).length ≠ 0 ∧
    (jsTrim e.overview).length ≠ 0 ∧ (jsTrim e.image).length ≠ 0 ∧
    (jsTrim e.venue).length ≠ 0 ∧ (jsTrim e.location).length ≠ 0 ∧
    (jsTrim e.date).length ≠ 0 ∧ (jsTrim e.time).length ≠ 0 ∧
    (jsTrim e.mode).length ≠ 0 ∧ (jsTrim e.audience).length ≠ 0 ∧
    (jsTrim e.organizer).length ≠ 0 := by
  simpa [stringFieldsOk, Bool.and_eq_true, bne_iff_ne, and_assoc] using hf

theorem mapTrimStrings_ok_inv {msg : String} {l : List JsVal} {a : List String}
    (h : mapTrimStrings msg l = Except.ok a) : a = (strVals l).map jsTrim := by
  induction l generalizing a with
  | nil =>
    cases h
    rfl
  | cons v rest ih =>
    cases v with
    | str s =>
      rw [mapTrimStrings] at h
      cases hr : mapTrimStrings msg rest with
      | error m => rw [hr] at h; cases h
      | ok r =>
        rw [hr] at h
        cases h
        rw [strVals, List.map_cons, ih hr]
    | other => cases h

/-! ## The claims -/

/-- C1: the claim asserts that every accepted time input produces a
zero-padded `HH:MM` output.  The code's 12-hour pattern accepts any one-
or two-digit hour, so the accepted input `"99:45 pm"` is mapped (by the
claimed `+12` rule) to `"111:45"`, whose hour field has three digits —
not `HH:MM`.  This evaluates the code at that failing input. -/
theorem C1_normalizeTime_accepts_overflow :
    normalizeTime "99:45 pm" = Except.ok "111:45" ∧
    ("111:45" : String).length ≠ 5 := by
  constructor
  · rfl
  · decide

/-- C2: the claim asserts that every stored time has hour `00`–`23` and
minutes `00`–`59`.  The code accepts `"13:30 pm"` through its unbounded
12-hour pattern and stores `"25:30"` (hour `25`); it likewise accepts
`"1:75 am"` and stores `"01:75"` (minutes `75`).  This evaluates the
code at the first failing input. -/
theorem C2_normalizeTime_stores_invalid_hour :
    normalizeTime "13:30 pm" = Except.ok "25:30" ∧
    normalizeTime "1:75 am" = Except.ok "01:75" := by
  constructor <;> rfl

/-- C5: slug derivation is idempotent: for every string `x`,
`toSlug (toSlug x) = toSlug x`. -/
theorem C5_toSlug_idempotent (x : String) : toSlug (toSlug x) = toSlug x := by
  have h : (toSlug x).data = toSlugL x.data := rfl
  calc toSlug (toSlug x)
      = String.mk (toSlugL (toSlugL x.data)) := by rw [toSlug, h]
    _ = String.mk (toSlugL x.data) := by rw [toSlugL_idem]
    _ = toSlug x := rfl

/-- C10: a title consisting only of characters that lower-case outside
`[a-z0-9\s-]` slugifies to the empty string; two such titles therefore
produce the same (empty) slug, colliding on the unique slug index; and
such an event passes the whole pre-save pipeline, reaching persistence
with `slug = ""` — witnessed by the concrete title `"!!!"`. -/
theorem C10_empty_slug :
    (∀ t : String, (∀ c ∈ t.data, keepChar (jsLowerChar c) = false) →
      toSlug t = "") ∧
    (∀ t1 t2 : String, (∀ c ∈ t1.data, keepChar (jsLowerChar c) = false) →
      (∀ c ∈ t2.data, keepChar (jsLowerChar c) = false) →
      toSlug t1 = toSlug t2) ∧
    handleNormalize (hostParse 0) true evSpecial =
      Except.ok
        { title := "!!!", description := "d", overview := "o", image := "i",
          venue := "v", location := "l", date := "2024-03-05",
          time := "09:30", mode := "m", audience := "a", organizer := "g",
          agenda := ["point"], tags := ["tag"], slug := "" } := by
  have hmain : ∀ t : String,
      (∀ c ∈ t.data, keepChar (jsLowerChar c) = false) → toSlug t = "" := by
    intro t ht
    rw [toSlug, toSlugL_eq_nil ht]
  refine ⟨hmain, fun t1 t2 h1 h2 => by rw [hmain t1 h1, hmain t2 h2], ?_⟩
  rfl

/-- C10 witness: the concrete title `"!!!"` slugifies to the empty
string. -/
theorem C10_empty_slug_witness : toSlug "!!!" = "" :=
  C10_empty_slug.1 "!!!" (by decide)

/-- C9 counterexample: the claim says the missing-configuration error is
never raised on a call that can return the cached live connection.  But
the code reads `MONGODB_URI` before looking at the cache, so with a
cached connection `7` and the variable unset the call throws instead of
returning the connection. -/
theorem C9_counterexample :
    connectToDatabase none { conn := some 7, promise := none } =
      ConnectOutcome.configError "MONGODB_URI environment variable is not set." ∧
    connectToDatabase none { conn := some 7, promise := none } ≠
      ConnectOutcome.immediate 7 := by
  constructor
  · rfl
  · decide

/-- C9 amended: the configuration check runs first on every call, so an
absent connection string always raises the configuration error, even
with a cached live connection; when the configuration value is present,
a cached live connection is returned immediately without suspension, an
in-flight establishment is awaited, and otherwise a new establishment is
started. -/
theorem C9_config_check_first (st : MongooseCache) :
    (connectToDatabase none st =
      ConnectOutcome.configError "MONGODB_URI environment variable is not set.") ∧
    (∀ u c, st.conn = some c →
      connectToDatabase (some u) st = ConnectOutcome.immediate c) ∧
    (∀ u p, st.conn = none → st.promise = some p →
      connectToDatabase (some u) st = ConnectOutcome.awaitPending p) ∧
    (∀ u, st.conn = none → st.promise = none →
      connectToDatabase (some u) st = ConnectOutcome.startEstablish u) := by
  refine ⟨rfl, ?_, ?_, ?_⟩
  · intro u c hc
    simp [connectToDatabase, hc]
  · intro u p hc hp
    simp [connectToDatabase, hc, hp]
  · intro u hc hp
    simp [connectToDatabase, hc, hp]

/-- C9 witness: with the configuration present and connection `7`
cached, the call returns it immediately. -/
theorem C9_config_check_first_witness :
    connectToDatabase (some "mongodb") { conn := some 7, promise := none } =
      ConnectOutcome.immediate 7 :=
  (C9_config_check_first { conn := some 7, promise := none }).2.1 "mongodb" 7 rfl

/-- C3 counterexample: on a host east of UTC (offset `+60` minutes,
e.g. central Europe) the major engines parse `"March 5, 2024"` as local
midnight, and the stored UTC date portion is `"2024-03-04"`, not the
claimed `"2024-03-05"` — the parse is not locale-independent. -/
theorem C3_counterexample :
    normalizeDate (hostParse 60) "March 5, 2024" = Except.ok "2024-03-04" ∧
    ("2024-03-04" : String) ≠ "2024-03-05" := by
  constructor
  · rfl
  · decide

/-- C3 amended: date normalization rejects with `Invalid date format.`
exactly when the host parser fails, and otherwise stores the ISO
`YYYY-MM-DD` portion of the parsed instant rendered in UTC; because the
engines parse non-ISO inputs such as `"March 5, 2024"` as local-time
midnight, that input is stored as `"2024-03-05"` when the host's UTC
offset is non-positive (e.g. UTC itself), and as the previous day on
hosts east of UTC. -/
theorem C3_normalizeDate_utc_portion :
    (∀ parse : String → Option Int, ∀ s : String,
      normalizeDate parse s = Except.error "Invalid date format." ↔
        parse s = none) ∧
    (∀ parse : String → Option Int, ∀ s : String, ∀ ms : Int,
      parse s = some ms →
        normalizeDate parse s = Except.ok (isoDatePortion ms)) ∧
    (∀ o : Int, -1440 < o → o ≤ 0 →
      normalizeDate (hostParse o) "March 5, 2024" = Except.ok "2024-03-05") := by
  refine ⟨?_, ?_, ?_⟩
  · intro parse s
    cases hp : parse s with
    | none => simp [normalizeDate, hp]
    | some ms => simp [normalizeDate, hp]
  · intro parse s ms hp
    simp [normalizeDate, hp]
  · intro o h1 h2
    have hd : daysFromCivil 2024 3 5 = 19787 := by decide
    have hp : hostParse o "March 5, 2024" =
        some (19787 * 86400000 - o * 60000) := by
      rw [hostParse, if_neg (by decide), if_pos rfl, hd]
    have hday : Int.fdiv (19787 * 86400000 - o * 60000) 86400000 = 19787 := by
      rw [Int.fdiv_eq_ediv _ (by norm_num)]
      have heq : 19787 * 86400000 - o * 60000 =
          -(o * 60000) + 19787 * 86400000 := by ring
      rw [heq, Int.add_mul_ediv_right _ _ (by norm_num),
        Int.ediv_eq_zero_of_lt (by omega) (by omega)]
      norm_num
    simp only [normalizeDate, hp]
    rw [isoDatePortion, hday]
    rfl

/-- C3 witness: on a UTC host (offset `0`) the spec's example holds. -/
theorem C3_normalizeDate_utc_portion_witness :
    normalizeDate (hostParse 0) "March 5, 2024" = Except.ok "2024-03-05" :=
  C3_normalizeDate_utc_portion.2.2 0 (by decide) (by decide)

/-- C4: on a successful save, the stored slug is recomputed from the
trimmed title exactly when the slug is falsy (unset or empty) or the
title changed in this write, and kept unchanged otherwise; and the
spec's example `toSlug "Node.js Meetup!!" = "nodejs-meetup"` holds. -/
theorem C4_slug_recompute (parse : String → Option Int) (tc : Bool)
    (e : EventDoc) (out : EventOut)
    (h : handleNormalize parse tc e = Except.ok out) :
    (slugFalsy e.slug = true ∨ tc = true →
      out.slug = toSlug (jsTrim e.title)) ∧
    (∀ s, e.slug = some s → s ≠ "" → tc = false → out.slug = s) ∧
    toSlug "Node.js Meetup!!" = "nodejs-meetup" := by
  rw [handleNormalize] at h
  obtain ⟨title, hT, h⟩ := bind_ok h
  try simp only [] at h
  obtain ⟨description, hD, h⟩ := bind_ok h
  try simp only [] at h
  obtain ⟨overview, hO, h⟩ := bind_ok h
  try simp only [] at h
  obtain ⟨image, hI, h⟩ := bind_ok h
  try simp only [] at h
  obtain ⟨venue, hV, h⟩ := bind_ok h
  try simp only [] at h
  obtain ⟨location, hL, h⟩ := bind_ok h
  try simp only [] at h
  obtain ⟨date0, hDa, h⟩ := bind_ok h
  try simp only [] at h
  obtain ⟨time0, hTi, h⟩ := bind_ok h
  try simp only [] at h
  obtain ⟨mode, hM, h⟩ := bind_ok h
  try simp only [] at h
  obtain ⟨audience, hAu, h⟩ := bind_ok h
  try simp only [] at h
  obtain ⟨organizer, hOr, h⟩ := bind_ok h
  try simp only [] at h
  obtain ⟨agenda0, hA0, h⟩ := bind_ok h
  try simp only [] at h
  split at h
  · exact Except.noConfusion h
  · obtain ⟨tags0, hT0, h⟩ := bind_ok h
    try simp only [] at h
    split at h
    · exact Except.noConfusion h
    · obtain ⟨date, hDt, h⟩ := bind_ok h
      try simp only [] at h
      obtain ⟨time, hTm, h⟩ := bind_ok h
      try simp only [] at h
      injection h with h2
      subst h2
      have htitle : title = jsTrim e.title := normStrField_ok_inv hT
      subst htitle
      refine ⟨?_, ?_, ?_⟩
      · intro hcond
        have hb : (slugFalsy e.slug || tc) = true := by
          rcases hcond with hx | hx <;> simp [hx]
        simp only [hb, if_pos]
      · intro s hs hne htc
        subst htc
        rw [hs]
        rw [if_neg (by simp [slugFalsy, hne])]
        rfl
      · decide

/-- C4 witness: the spec's example event, saved new with the title
modified, gets the slug `"nodejs-meetup"` recomputed from its trimmed
title. -/
theorem C4_slug_recompute_witness :
    handleNormalize (hostParse 0) true evMeetup = Except.ok outMeetup ∧
    outMeetup.slug = toSlug (jsTrim evMeetup.title) := by
  have h : handleNormalize (hostParse 0) true evMeetup = Except.ok outMeetup := rfl
  exact ⟨h,
    (C4_slug_recompute (hostParse 0) true evMeetup outMeetup h).1 (Or.inr rfl)⟩

/-- C6: on every save with valid string fields, `agenda` and `tags` are
normalized independently by the same procedure: a non-string entry
fails the save with `agenda must contain strings.` (resp. `tags must
contain strings.`); otherwise every entry is trimmed and entries that
become empty are dropped; an empty resulting list (in particular from a
list of whitespace-only entries) fails the save with the non-empty-array
error; and on success the stored lists are exactly the trimmed,
empties-dropped entries. -/
theorem C6_agenda_tags_normalization (parse : String → Option Int) (tc : Bool)
    (e : EventDoc) (hf : stringFieldsOk e = true) :
    (JsVal.other ∈ e.agenda.getD [] →
      handleNormalize parse tc e =
        Except.error "agenda must contain strings.") ∧
    (JsVal.other ∉ e.agenda.getD [] →
      normalizedEntries (e.agenda.getD []) = [] →
      handleNormalize parse tc e =
        Except.error "agenda is required and must be a non-empty array.") ∧
    (JsVal.other ∉ e.agenda.getD [] →
      normalizedEntries (e.agenda.getD []) ≠ [] →
      JsVal.other ∈ e.tags.getD [] →
      handleNormalize parse tc e =
        Except.error "tags must contain strings.") ∧
    (JsVal.other ∉ e.agenda.getD [] →
      normalizedEntries (e.agenda.getD []) ≠ [] →
      JsVal.other ∉ e.tags.getD [] →
      normalizedEntries (e.tags.getD []) = [] →
      handleNormalize parse tc e =
        Except.error "tags is required and must be a non-empty array.") ∧
    (∀ out, handleNormalize parse tc e = Except.ok out →
      out.agenda = normalizedEntries (e.agenda.getD []) ∧
      out.tags = normalizedEntries (e.tags.getD [])) := by
  obtain ⟨h1, h2, h3, h4, h5, h6, h7, h8, h9, h10, h11⟩ := stringFieldsOk_parts hf
  refine ⟨?_, ?_, ?_, ?_, ?_⟩
  · intro hA
    simp only [handleNormalize, normStrField_ok "title" h1,
      normStrField_ok "description" h2, normStrField_ok "overview" h3,
      normStrField_ok "image" h4, normStrField_ok "venue" h5,
      normStrField_ok "location" h6, normStrField_ok "date" h7,
      normStrField_ok "time" h8, normStrField_ok "mode" h9,
      normStrField_ok "audience" h10, normStrField_ok "organizer" h11,
      okBind, mapTrimStrings_err "agenda must contain strings." hA, errBind]
  · intro hA hEmpty
    unfold normalizedEntries at hEmpty
    simp only [handleNormalize, normStrField_ok "title" h1,
      normStrField_ok "description" h2, normStrField_ok "overview" h3,
      normStrField_ok "image" h4, normStrField_ok "venue" h5,
      normStrField_ok "location" h6, normStrField_ok "date" h7,
      normStrField_ok "time" h8, normStrField_ok "mode" h9,
      normStrField_ok "audience" h10, normStrField_ok "organizer" h11,
      okBind, mapTrimStrings_ok "agenda must contain strings." hA]
    rw [hEmpty]
    simp
  · intro hA hNE hT
    have hcond : (normalizedEntries (e.agenda.getD [])).length ≠ 0 :=
      fun h0 => hNE (List.length_eq_zero.mp h0)
    unfold normalizedEntries at hcond
    simp only [handleNormalize, normStrField_ok "title" h1,
      normStrField_ok "description" h2, normStrField_ok "overview" h3,
      normStrField_ok "image" h4, normStrField_ok "venue" h5,
      normStrField_ok "location" h6, normStrField_ok "date" h7,
      normStrField_ok "time" h8, normStrField_ok "mode" h9,
      normStrField_ok "audience" h10, normStrField_ok "organizer" h11,
      okBind, mapTrimStrings_ok "agenda must contain strings." hA,
      mapTrimStrings_err "tags must contain strings." hT, errBind]
    rw [if_neg hcond]
  · intro hA hNE hT hTEmpty
    have hcond : (normalizedEntries (e.agenda.getD [])).length ≠ 0 :=
      fun h0 => hNE (List.length_eq_zero.mp h0)
    unfold normalizedEntries at hcond
    unfold normalizedEntries at hTEmpty
    simp only [handleNormalize, normStrField_ok "title" h1,
      normStrField_ok "description" h2, normStrField_ok "overview" h3,
      normStrField_ok "image" h4, normStrField_ok "venue" h5,
      normStrField_ok "location" h6, normStrField_ok "date" h7,
      normStrField_ok "time" h8, normStrField_ok "mode" h9,
      normStrField_ok "audience" h10, normStrField_ok "organizer" h11,
      okBind, mapTrimStrings_ok "agenda must contain strings." hA,
      mapTrimStrings_ok "tags must contain strings." hT]
    rw [if_neg hcond, hTEmpty]
    simp
  · intro out h
    rw [handleNormalize] at h
    obtain ⟨title, hT, h⟩ := bind_ok h
    try simp only [] at h
    obtain ⟨description, hD, h⟩ := bind_ok h
    try simp only [] at h
    obtain ⟨overview, hO, h⟩ := bind_ok h
    try simp only [] at h
    obtain ⟨image, hI, h⟩ := bind_ok h
    try simp only [] at h
    obtain ⟨venue, hV, h⟩ := bind_ok h
    try simp only [] at h
    obtain ⟨location, hL, h⟩ := bind_ok h
    try simp only [] at h
    obtain ⟨date0, hDa, h⟩ := bind_ok h
    try simp only [] at h
    obtain ⟨time0, hTi, h⟩ := bind_ok h
    try simp only [] at h
    obtain ⟨mode, hM, h⟩ := bind_ok h
    try simp only [] at h
    obtain ⟨audience, hAu, h⟩ := bind_ok h
    try simp only [] at h
    obtain ⟨organizer, hOr, h⟩ := bind_ok h
    try simp only [] at h
    obtain ⟨agenda0, hA0, h⟩ := bind_ok h
    try simp only [] at h
    split at h
    · exact Except.noConfusion h
    · obtain ⟨tags0, hT0, h⟩ := bind_ok h
      try simp only [] at h
      split at h
      · exact Except.noConfusion h
      · obtain ⟨date, hDt, h⟩ := bind_ok h
        try simp only [] at h
        obtain ⟨time, hTm, h⟩ := bind_ok h
        try simp only [] at h
        injection h with h2
        subst h2
        have ha : agenda0 = (strVals (e.agenda.getD [])).map jsTrim :=
          mapTrimStrings_ok_inv hA0
        have ht : tags0 = (strVals (e.tags.getD [])).map jsTrim :=
          mapTrimStrings_ok_inv hT0
        subst ha
        subst ht
        exact ⟨rfl, rfl⟩

/-- C6 witness: a concrete event whose agenda contains a non-string
entry fails the save with the agenda type error. -/
theorem C6_agenda_tags_normalization_witness :
    handleNormalize (hostParse 0) true evBadAgenda =
      Except.error "agenda must contain strings." :=
  (C6_agenda_tags_normalization (hostParse 0) true evBadAgenda (by decide)).1
    (by decide)

theorem okChar_iff {c : Char} :
    okChar c = true ↔ jsSpace c = false ∧ c ≠ '@' := by
  simp [okChar]

theorem stored_email_length (s : String) :
    (jsTrim (jsLowerStr (jsTrim s))).length = (jsTrim s).length := by
  rw [jsTrim_lower_trim, length_jsLowerStr]

theorem string_length_ne_zero {t : String} (h : t ≠ "") : t.length ≠ 0 := by
  intro h0
  apply h
  cases t with
  | mk l =>
    cases l with
    | nil => rfl
    | cons c cs =>
      have hl : (String.mk (c :: cs)).length = cs.length + 1 := rfl
      omega

theorem string_ne_empty_of_length {t : String} (h : t.length ≠ 0) : t ≠ "" := by
  intro h0
  subst h0
  exact h rfl

/-- C7 counterexample: `"a@.b"` satisfies the claim's email shape
(local `a` without white space or `@`; domain `.b` without white space
and containing a dot), yet the save is rejected with
`Invalid email format.` because the code's regex requires at least one
character between the `@` and the dot. -/
theorem C7_counterexample :
    claimEmailShape "a@.b" ∧
    saveBooking (fun _ => true) [1]
        { email := JsVal.str "a@.b", eventId := 1, isNew := true,
          eventIdModified := false } =
      Except.error "Invalid email format." := by
  constructor
  · exact ⟨['a'], ['.', 'b'], rfl, by decide, by decide, by decide, by decide,
      by decide⟩
  · rfl

/-- C7 amended: a booking save rejects a non-string or
empty-after-trimming email with the required-string error, rejects with
`Invalid email format.` exactly those non-empty emails whose stored
(trimmed, lower-cased) form fails the email regex, and stores the
trimmed, lower-cased input; the regex accepts exactly the shape
`local@m.t` where the local part, `m` and `t` are non-empty and free of
white space and `@` — i.e. the domain also excludes `@` and must
contain an interior dot. -/
theorem C7_email_validation (validId : Nat → Bool) (events : List Nat)
    (b : BookingDoc) :
    (b.email = JsVal.other →
      saveBooking validId events b =
        Except.error "email is required and must be a non-empty string.") ∧
    (∀ s, b.email = JsVal.str s → jsTrim s = "" →
      saveBooking validId events b =
        Except.error "email is required and must be a non-empty string.") ∧
    (∀ s, b.email = JsVal.str s →
      (saveBooking validId events b = Except.error "Invalid email format." ↔
        jsTrim s ≠ "" ∧ isValidEmail (jsLowerStr (jsTrim s)) = false)) ∧
    (∀ s, b.email = JsVal.str s →
      setEmail b.email = JsVal.str (jsLowerStr (jsTrim s))) ∧
    (∀ s : String, isValidEmail s = true ↔
      ∃ lp m t, s.data = lp ++ '@' :: (m ++ '.' :: t) ∧
        lp ≠ [] ∧ m ≠ [] ∧ t ≠ [] ∧
        (∀ c ∈ lp, jsSpace c = false ∧ c ≠ '@') ∧
        (∀ c ∈ m, jsSpace c = false ∧ c ≠ '@') ∧
        (∀ c ∈ t, jsSpace c = false ∧ c ≠ '@')) := by
  refine ⟨?_, ?_, ?_, ?_, ?_⟩
  · intro h
    simp [saveBooking, h, setEmail, validateBooking]
  · intro s hs h0
    have hstored : jsLowerStr (jsTrim s) = "" := by rw [h0]; rfl
    have h1 : (jsTrim "").length = 0 := rfl
    simp [saveBooking, hs, setEmail, hstored, validateBooking, h1]
  · intro s hs
    constructor
    · intro herr
      by_cases hlen : (jsTrim (jsLowerStr (jsTrim s))).length = 0
      · exfalso
        simp [saveBooking, hs, setEmail, validateBooking, hlen] at herr
      · by_cases hv : isValidEmail (jsLowerStr (jsTrim s)) = true
        · exfalso
          simp only [saveBooking, hs, setEmail, validateBooking] at herr
          rw [if_neg hlen] at herr
          rw [if_neg (by simp [hv])] at herr
          split at herr
          · simp at herr
          · split at herr
            · split at herr <;> simp at herr
            · simp at herr
        · refine ⟨?_, by simpa using hv⟩
          apply string_ne_empty_of_length
          intro h0
          exact hlen (by rw [stored_email_length]; exact h0)
    · rintro ⟨hne, hbad⟩
      have hlen : (jsTrim (jsLowerStr (jsTrim s))).length ≠ 0 := by
        rw [stored_email_length]
        exact string_length_ne_zero hne
      simp only [saveBooking, hs, setEmail, validateBooking]
      rw [if_neg hlen, if_pos (by simp [hbad])]
  · intro s hs
    rw [hs]
    rfl
  · intro s
    rw [isValidEmail]
    rw [isValidEmailL_iff]
    constructor
    · rintro ⟨lp, m, t, heq, h1, h2, h3, h4, h5, h6⟩
      exact ⟨lp, m, t, heq, h1, h2, h3,
        fun c hc => okChar_iff.mp (h4 c hc),
        fun c hc => okChar_iff.mp (h5 c hc),
        fun c hc => okChar_iff.mp (h6 c hc)⟩
    · rintro ⟨lp, m, t, heq, h1, h2, h3, h4, h5, h6⟩
      exact ⟨lp, m, t, heq, h1, h2, h3,
        fun c hc => okChar_iff.mpr (h4 c hc),
        fun c hc => okChar_iff.mpr (h5 c hc),
        fun c hc => okChar_iff.mpr (h6 c hc)⟩

/-- C7 witness: the email `"x@y"` is non-empty after trimming but has no
dot in its domain, so the save fails with `Invalid email format.` -/
theorem C7_email_validation_witness :
    saveBooking (fun _ => true) []
        { email := JsVal.str "x@y", eventId := 1, isNew := true,
          eventIdModified := false } =
      Except.error "Invalid email format." :=
  ((C7_email_validation (fun _ => true) []
      { email := JsVal.str "x@y", eventId := 1, isNew := true,
        eventIdModified := false }).2.2.1 "x@y" rfl).mpr
    ⟨by decide, by decide⟩

/-- C8: with a valid email and a structurally valid event id, the
existence lookup runs exactly for a new document or a changed
`eventId`: in that case a missing referenced event fails the save with
`Referenced event does not exist.` and an existing one lets it succeed;
on an update that does not change `eventId` the save succeeds against
every event store, dangling reference included — no lookup occurs. -/
theorem C8_event_existence_check (validId : Nat → Bool) (events : List Nat)
    (b : BookingDoc) (hmail : emailOk b.email = true)
    (hid : validId b.eventId = true) :
    ((b.isNew = true ∨ b.eventIdModified = true) → b.eventId ∉ events →
      saveBooking validId events b =
        Except.error "Referenced event does not exist.") ∧
    ((b.isNew = true ∨ b.eventIdModified = true) → b.eventId ∈ events →
      saveBooking validId events b = Except.ok ()) ∧
    (b.isNew = false → b.eventIdModified = false →
      ∀ events2 : List Nat, saveBooking validId events2 b = Except.ok ()) := by
  cases hb : b.email with
  | other => exact absurd (hb ▸ hmail) (by simp [emailOk])
  | str s =>
    rw [hb] at hmail
    have hm2 : ¬(jsTrim (jsLowerStr (jsTrim s))).length = 0 ∧
        isValidEmail (jsLowerStr (jsTrim s)) = true := by
      simpa [emailOk] using hmail
    have hlen := hm2.1
    have hval := hm2.2
    refine ⟨?_, ?_, ?_⟩
    · intro hnew hmem
      simp only [saveBooking, hb, setEmail, validateBooking]
      rw [if_neg hlen, if_neg (by simp [hval]), if_neg (by simp [hid]),
        if_pos (by rcases hnew with h | h <;> simp [h]),
        if_neg (by simpa using fun hmm => hmem (List.elem_iff.mp hmm))]
    · intro hnew hmem
      simp only [saveBooking, hb, setEmail, validateBooking]
      rw [if_neg hlen, if_neg (by simp [hval]), if_neg (by simp [hid]),
        if_pos (by rcases hnew with h | h <;> simp [h]),
        if_pos (by simpa using List.elem_iff.mpr hmem)]
    · intro hnew hmod events2
      simp only [saveBooking, hb, setEmail, validateBooking]
      rw [if_neg hlen, if_neg (by simp [hval]), if_neg (by simp [hid]),
        if_neg (by simp [hnew, hmod])]

/-- C8 witness: a fresh booking with a valid email against an empty
event store fails with the missing-reference error. -/
theorem C8_event_existence_check_witness :
    saveBooking (fun _ => true) []
        { email := JsVal.str "a@b.c", eventId := 2, isNew := true,
          eventIdModified := false } =
      Except.error "Referenced event does not exist." :=
  (C8_event_existence_check (fun _ => true) []
      { email := JsVal.str "a@b.c", eventId := 2, isNew := true,
        eventIdModified := false } (by decide) rfl).1 (Or.inl rfl) (by decide)
